import Mathlib

/-!
Verification of the stock-market-visualizer repository.

Shallow embedding of `src/stock_data_manager.py` (class `StockDataManager`)
and the pure data computations of `src/visualizer.py` (`StockReport.plot_stock`
and `generate_historical_data`).

Modelling choices:
* Python dicts are association lists `List (String × SymbolRecord)` whose keys
  are kept unique by the insert operation (`dictInsert` updates the first
  matching key in place, preserving insertion order, or appends a fresh key at
  the end — exactly CPython dict insertion semantics on dicts with unique keys).
* File-system and network effects are an explicit `World` value threaded
  through `load_symbols`; the boolean `networkCalled` records whether the
  `requests.get` call in `_fetch_from_api` was reached.
* `json.dump`/`json.load` of a dict of strings is faithful (key order and
  values preserved), so the cache file is modelled by the `CacheData` record
  that `_save_to_cache` builds; the failure modes of `_load_from_cache`
  (missing file, unreadable file, invalid JSON) are the non-`ok` constructors
  of `CacheRead`.
* Exceptions caught by the `try/except` blocks never escape; the model makes
  every operation a total function, and the caught-failure branches return the
  unchanged state exactly as the Python handlers do.
* Prices are rationals (the claims proved here do not depend on rounding),
  and `random.uniform(-2, 2)` is an oracle `ch : Nat → ℚ` indexed by loop
  iteration.
-/

namespace StockVis

/-- The per-symbol record built by `_fetch_from_api` from `item.get(...)`:
each field is `Option String` because `dict.get` yields `None` when absent. -/
structure SymbolRecord where
  code : Option String
  name : Option String
  country : Option String
  exchange : Option String
  currency : Option String
  typ : Option String
  isin : Option String
deriving DecidableEq

/-- One element of the JSON array returned by the exchange-symbol-list
endpoint.  The `Code` field is the dictionary key in the source, modelled as
always present (per the remote API contract); the remaining fields may be
absent. -/
structure ApiItem where
  itemCode : String
  itemName : Option String
  itemCountry : Option String
  itemExchange : Option String
  itemCurrency : Option String
  itemType : Option String
  itemIsin : Option String
deriving DecidableEq

/-- The record `_fetch_from_api` stores under `self.stocks[code]`. -/
def recordOfItem (i : ApiItem) : SymbolRecord :=
  { code := some i.itemCode
    name := i.itemName
    country := i.itemCountry
    exchange := i.itemExchange
    currency := i.itemCurrency
    typ := i.itemType
    isin := i.itemIsin }

/-- The `self.stocks` dict: an insertion-ordered association list. -/
abbrev Stocks := List (String × SymbolRecord)

/-- `list(d.keys())` for the dict model. -/
def dictKeys (d : Stocks) : List String := d.map Prod.fst

/-- `d[k] = v` on a Python dict: update the existing entry in place (keeping
its position) or append a new one. -/
def dictInsert : Stocks → String → SymbolRecord → Stocks
  | [], k, v => [(k, v)]
  | p :: rest, k, v => if p.1 = k then (k, v) :: rest else p :: dictInsert rest k v

/-- `d.get(q)`: the value stored at the first entry with key `q`, if any. -/
def dictGet : Stocks → String → Option SymbolRecord
  | [], _ => none
  | p :: rest, q => if p.1 = q then some p.2 else dictGet rest q

/-- The in-memory state of `StockDataManager`: `self.stocks` and
`self.symbols`. -/
structure ManagerState where
  stocks : Stocks
  symbols : List String
deriving DecidableEq

/-- The state set up at the top of `__init__`, before `load_symbols` runs. -/
def emptyState : ManagerState := { stocks := [], symbols := [] }

/-- Outcome of the `requests.get` call in `_fetch_from_api`: a 200 response
with a parsed JSON array, a non-200 status, or a transport/parse exception. -/
inductive ApiResponse where
  | ok (items : List ApiItem)
  | httpError (status : Nat)
  | transportError
deriving DecidableEq

/-- The `for item in symbols_data` loop body folded over the response. -/
def ingest (d : Stocks) (items : List ApiItem) : Stocks :=
  items.foldl (fun acc i => dictInsert acc i.itemCode (recordOfItem i)) d

/-- `_fetch_from_api`: on status 200 the response is merged into the existing
`self.stocks` (the dict is never cleared first) and `self.symbols` is rebuilt
as `list(self.stocks.keys())`; on a non-200 status or an exception the state
is left untouched. -/
def fetch_from_api (st : ManagerState) (r : ApiResponse) : ManagerState :=
  match r with
  | .ok items =>
      let stocks := ingest st.stocks items
      { stocks := stocks, symbols := dictKeys stocks }
  | .httpError _ => st
  | .transportError => st

/-- The JSON document `_save_to_cache` writes: keys `stocks`, `symbols`,
`cached_at`.  Fields are optional because `_load_from_cache` reads them with
`data.get(..., default)` and a foreign file may omit them. -/
structure CacheData where
  cacheStocks : Option Stocks
  cacheSymbols : Option (List String)
  cachedAt : Option String
deriving DecidableEq

/-- What reading the cache file can yield: no file, an unreadable file, a file
that is not valid JSON, or parsed cache data. -/
inductive CacheRead where
  | absent
  | unreadable
  | invalidData
  | ok (d : CacheData)
deriving DecidableEq

/-- `os.path.exists(CACHE_FILE)`: true in every case except a missing file. -/
def CacheRead.existsOnDisk : CacheRead → Bool
  | .absent => false
  | _ => true

/-- The document `_save_to_cache` builds from the current state and the
`datetime.now().isoformat()` timestamp `t`. -/
def save_to_cache (st : ManagerState) (t : String) : CacheData :=
  { cacheStocks := some st.stocks
    cacheSymbols := some st.symbols
    cachedAt := some t }

/-- `_load_from_cache`: on success adopt `data.get('stocks', {})` and
`data.get('symbols', [])`; any exception (missing, unreadable or invalid
file) is caught, logged, and leaves the state unchanged. -/
def load_from_cache (st : ManagerState) (r : CacheRead) : ManagerState :=
  match r with
  | .ok d => { stocks := d.cacheStocks.getD [], symbols := d.cacheSymbols.getD [] }
  | _ => st

/-- The external world seen by one `load_symbols` call: the cache file on disk
and what the remote endpoint would answer if called. -/
structure World where
  cache : CacheRead
  response : ApiResponse
deriving DecidableEq

/-- Result of `load_symbols`: new in-memory state, new world (the cache file
may have been overwritten), and whether a network call was made. -/
structure StepResult where
  state : ManagerState
  world : World
  networkCalled : Bool
deriving DecidableEq

/-- `load_symbols(force_refresh)`: use the cache when `not force_refresh and
os.path.exists(CACHE_FILE)`, otherwise `_fetch_from_api()` then
`_save_to_cache()` (the save runs even when the fetch failed). -/
def load_symbols (force : Bool) (st : ManagerState) (w : World) (t : String) :
    StepResult :=
  if !force && w.cache.existsOnDisk then
    { state := load_from_cache st w.cache, world := w, networkCalled := false }
  else
    let st2 := fetch_from_api st w.response
    { state := st2
      world := { w with cache := .ok (save_to_cache st2 t) }
      networkCalled := true }

/-- `__init__(force_refresh)`: start from empty `stocks`/`symbols`, then
`load_symbols(force_refresh)`. -/
def initManager (force : Bool) (w : World) (t : String) : StepResult :=
  load_symbols force emptyState w t

/-- `refresh_symbols()`: `load_symbols(force_refresh=True)` on the current
state. -/
def refresh_symbols (st : ManagerState) (w : World) (t : String) : StepResult :=
  load_symbols true st w t

/-- `get_symbols()`: the in-memory list. -/
def get_symbols (st : ManagerState) : List String := st.symbols

/-- `get_stock_info(symbol)`: `self.stocks.get(symbol, {})`; `none` models the
empty-dict default returned when the key is absent. -/
def get_stock_info (st : ManagerState) (s : String) : Option SymbolRecord :=
  dictGet st.stocks s

/-- The catalog invariant claimed by the spec: `self.symbols` equals
`list(self.stocks.keys())`. -/
def Inv (st : ManagerState) : Prop := st.symbols = dictKeys st.stocks

/-- A cache file the program itself could have on disk: either no usable file,
or the serialization of some state satisfying the invariant. -/
def GoodCache : CacheRead → Prop
  | .ok d => ∃ st t, Inv st ∧ d = save_to_cache st t
  | _ => True

/-! ### Visualizer: `plot_stock` data computations and
`generate_historical_data` -/

/-- The exception raised by `min()`/`max()`/`list.index()` on failure. -/
inductive PyError where
  | valueError
deriving DecidableEq

/-- Python `min(l)`: `ValueError` on an empty sequence. -/
def pyMin (l : List ℚ) : Except PyError ℚ :=
  match l.min? with
  | some m => .ok m
  | none => .error .valueError

/-- Python `max(l)`: `ValueError` on an empty sequence. -/
def pyMax (l : List ℚ) : Except PyError ℚ :=
  match l.max? with
  | some m => .ok m
  | none => .error .valueError

/-- Python `l.index(x)`: first index of `x`, `ValueError` when absent. -/
def pyIndex (l : List ℚ) (x : ℚ) : Except PyError Nat :=
  match l.findIdx? (fun y => y == x) with
  | some i => .ok i
  | none => .error .valueError

/-- The data `plot_stock` places on the axes. -/
structure PlotData where
  xs : List Nat
  ys : List ℚ
  tickPositions : List Nat
  tickLabels : List String
  minPrice : ℚ
  maxPrice : ℚ
  minIdx : Nat
  maxIdx : Nat
deriving DecidableEq

/-- `StockReport.plot_stock`, reduced to its data computations in source
order: the line points, `range(0, len(prices), 5)` tick positions with date
labels (`dates[i] if i < len(dates) else ''` over 30 generated dates), then
the unguarded `min(prices)`, `max(prices)` and `prices.index(...)` used for
the annotations.  `dateFor` abstracts the `datetime.now()`-derived date
strings. -/
def plot_stock (dateFor : Nat → String) (prices : List ℚ) :
    Except PyError PlotData := do
  let dates := (List.range 30).map dateFor
  let ticks := (List.range prices.length).filter (fun i => i % 5 == 0)
  let tickLabels := ticks.map (fun i => dates.getD i "")
  let mn ← pyMin prices
  let mx ← pyMax prices
  let mnIdx ← pyIndex prices mn
  let mxIdx ← pyIndex prices mx
  pure { xs := List.range prices.length
         ys := prices
         tickPositions := ticks
         tickLabels := tickLabels
         minPrice := mn
         maxPrice := mx
         minIdx := mnIdx
         maxIdx := mxIdx }

/-- `prices[-1]` (the loop below only ever applies it to non-empty lists). -/
def pyLastD (l : List ℚ) : ℚ := l.getLast?.getD 0

/-- The `for _ in range(days - 1)` loop of `generate_historical_data`:
each iteration prepends `prices[-1] * (1 + change / 100)` via
`prices.insert(0, new_price)`. -/
def genAux (ch : Nat → ℚ) : Nat → List ℚ → List ℚ
  | 0, prices => prices
  | k + 1, prices => genAux ch k ((pyLastD prices * (1 + ch k / 100)) :: prices)

/-- `generate_historical_data(current_price, days)` with the
`random.uniform(-2, 2)` draws supplied by the oracle `ch`. -/
def generate_historical_data (ch : Nat → ℚ) (current_price : ℚ)
    (days : Nat) : List ℚ :=
  genAux ch (days - 1) [current_price]

/-! ### Concrete objects used by counterexamples and witnesses -/

/-- An API item for ticker `B` with no optional metadata. -/
def exItemB : ApiItem :=
  { itemCode := "B", itemName := none, itemCountry := none,
    itemExchange := none, itemCurrency := none, itemType := none,
    itemIsin := none }

/-- A stored record for ticker `A`. -/
def exRecA : SymbolRecord :=
  { code := some "A", name := none, country := none, exchange := none,
    currency := none, typ := none, isin := none }

/-- A populated catalog state holding only ticker `A`. -/
def exPrior : ManagerState := { stocks := [("A", exRecA)], symbols := ["A"] }

/-- The value the ingest loop leaves under key `q`: the record of the last
response item whose `Code` is `q`, if any (last write wins). -/
def lastRec : List ApiItem → String → Option SymbolRecord
  | [], _ => none
  | i :: rest, q =>
      match lastRec rest q with
      | some r => some r
      | none => if q = i.itemCode then some (recordOfItem i) else none

/-! ### Helper lemmas about the dict model -/

theorem dictGet_eq_none : ∀ (d : Stocks) (q : String),
    q ∉ dictKeys d → dictGet d q = none
  | [], _, _ => rfl
  | p :: rest, q, h => by
    have h1 : p.1 ≠ q := fun he => h (by simp [dictKeys, he])
    have h2 : q ∉ dictKeys rest := fun hm => h (by simp [dictKeys] at hm ⊢; exact Or.inr hm)
    simp only [dictGet, if_neg h1]
    exact dictGet_eq_none rest q h2

theorem dictKeys_insert (d : Stocks) (k : String) (v : SymbolRecord) :
    dictKeys (dictInsert d k v) =
      if k ∈ dictKeys d then dictKeys d else dictKeys d ++ [k] := by
  induction d with
  | nil => simp [dictKeys, dictInsert]
  | cons p rest ih =>
    have hck : dictKeys (p :: rest) = p.1 :: dictKeys rest := rfl
    by_cases hp : p.1 = k
    · have hm2 : k ∈ dictKeys (p :: rest) := by
        rw [hck, hp]; exact List.mem_cons_self _ _
      rw [if_pos hm2]
      simp only [dictInsert, if_pos hp, hck]
      show k :: dictKeys rest = p.1 :: dictKeys rest
      rw [hp]
    · have hmem : (k ∈ dictKeys (p :: rest)) ↔ k ∈ dictKeys rest := by
        rw [hck, List.mem_cons]
        exact ⟨fun h => h.elim (fun he => absurd he.symm hp) id, Or.inr⟩
      have hins : dictInsert (p :: rest) k v = p :: dictInsert rest k v := by
        simp only [dictInsert, if_neg hp]
      have hkeys : dictKeys (p :: dictInsert rest k v) =
          p.1 :: dictKeys (dictInsert rest k v) := rfl
      by_cases hm : k ∈ dictKeys rest
      · rw [if_pos (hmem.mpr hm), hins, hkeys, ih, if_pos hm, hck]
      · rw [if_neg (fun h => hm (hmem.mp h)), hins, hkeys, ih, if_neg hm, hck]
        simp

theorem dictGet_insert : ∀ (d : Stocks) (k : String) (v : SymbolRecord) (q : String),
    dictGet (dictInsert d k v) q = if q = k then some v else dictGet d q
  | [], k, v, q => by
    by_cases h : q = k
    · simp [dictInsert, dictGet, h]
    · have h2 : ¬ k = q := fun he => h he.symm
      simp [dictInsert, dictGet, h, h2]
  | p :: rest, k, v, q => by
    by_cases hp : p.1 = k
    · by_cases hq : q = k
      · simp [dictInsert, dictGet, hp, hq]
      · have hpq : ¬ p.1 = q := fun he => hq (by rw [← he, hp])
        have hkq : ¬ k = q := fun he => hq he.symm
        simp [dictInsert, dictGet, hp, hq, hpq, hkq]
    · by_cases hpq : p.1 = q
      · have hq : ¬ q = k := fun he => hp (by rw [hpq, he])
        simp [dictInsert, dictGet, hp, hpq, hq]
      · simp [dictInsert, dictGet, hp, hpq, dictGet_insert rest k v q]

theorem mem_dictKeys_insert (d : Stocks) (k : String) (v : SymbolRecord)
    (a : String) (ha : a ∈ dictKeys d) : a ∈ dictKeys (dictInsert d k v) := by
  rw [dictKeys_insert]
  by_cases hm : k ∈ dictKeys d
  · rwa [if_pos hm]
  · rw [if_neg hm]
    exact List.mem_append_left _ ha

theorem self_mem_dictKeys_insert (d : Stocks) (k : String) (v : SymbolRecord) :
    k ∈ dictKeys (dictInsert d k v) := by
  rw [dictKeys_insert]
  by_cases hm : k ∈ dictKeys d
  · rwa [if_pos hm]
  · rw [if_neg hm]
    exact List.mem_append_right _ (by simp)

theorem nodup_dictKeys_insert (d : Stocks) (k : String) (v : SymbolRecord)
    (h : (dictKeys d).Nodup) : (dictKeys (dictInsert d k v)).Nodup := by
  rw [dictKeys_insert]
  by_cases hm : k ∈ dictKeys d
  · rwa [if_pos hm]
  · rw [if_neg hm]
    refine List.Nodup.append h (List.nodup_singleton k) ?_
    intro a ha hb
    rw [List.mem_singleton] at hb
    exact hm (hb ▸ ha)

theorem ingest_nil (d : Stocks) : ingest d [] = d := rfl

theorem ingest_cons (d : Stocks) (i : ApiItem) (rest : List ApiItem) :
    ingest d (i :: rest) = ingest (dictInsert d i.itemCode (recordOfItem i)) rest := rfl

theorem mem_dictKeys_ingest : ∀ (items : List ApiItem) (d : Stocks) (a : String),
    a ∈ dictKeys d → a ∈ dictKeys (ingest d items)
  | [], _, _, ha => ha
  | i :: rest, d, a, ha =>
      mem_dictKeys_ingest rest _ a (mem_dictKeys_insert d _ _ a ha)

theorem code_mem_dictKeys_ingest : ∀ (items : List ApiItem) (d : Stocks) (i : ApiItem),
    i ∈ items → i.itemCode ∈ dictKeys (ingest d items)
  | [], _, _, h => absurd h (List.not_mem_nil _)
  | j :: rest, d, i, h => by
      rcases List.mem_cons.mp h with h1 | h2
      · subst h1
        exact mem_dictKeys_ingest rest _ _ (self_mem_dictKeys_insert d _ _)
      · exact code_mem_dictKeys_ingest rest _ i h2

theorem dictKeys_ingest_stable : ∀ (items : List ApiItem) (d : Stocks),
    (∀ i ∈ items, i.itemCode ∈ dictKeys d) → dictKeys (ingest d items) = dictKeys d
  | [], _, _ => rfl
  | i :: rest, d, h => by
      have h1 : i.itemCode ∈ dictKeys d := h i (List.mem_cons_self _ _)
      have hkeys : dictKeys (dictInsert d i.itemCode (recordOfItem i)) = dictKeys d := by
        rw [dictKeys_insert, if_pos h1]
      have hrest : ∀ j ∈ rest,
          j.itemCode ∈ dictKeys (dictInsert d i.itemCode (recordOfItem i)) := by
        intro j hj
        rw [hkeys]
        exact h j (List.mem_cons_of_mem _ hj)
      rw [ingest_cons, dictKeys_ingest_stable rest _ hrest, hkeys]

theorem nodup_dictKeys_ingest : ∀ (items : List ApiItem) (d : Stocks),
    (dictKeys d).Nodup → (dictKeys (ingest d items)).Nodup
  | [], _, h => h
  | i :: rest, d, h => nodup_dictKeys_ingest rest _ (nodup_dictKeys_insert d _ _ h)

theorem dictGet_ingest : ∀ (items : List ApiItem) (d : Stocks) (q : String),
    dictGet (ingest d items) q =
      match lastRec items q with
      | some r => some r
      | none => dictGet d q
  | [], _, _ => rfl
  | i :: rest, d, q => by
      rw [ingest_cons, dictGet_ingest rest _ q]
      cases hlr : lastRec rest q with
      | some r => simp [lastRec, hlr]
      | none =>
        simp only [lastRec, hlr]
        rw [dictGet_insert]
        by_cases hq : q = i.itemCode
        · simp [hq]
        · simp [hq]

theorem dict_ext : ∀ (d1 d2 : Stocks), (dictKeys d1).Nodup →
    dictKeys d1 = dictKeys d2 → (∀ q, dictGet d1 q = dictGet d2 q) → d1 = d2
  | [], d2, _, hk, _ => by
      cases d2 with
      | nil => rfl
      | cons p r => simp [dictKeys] at hk
  | p1 :: r1, d2, hnd, hk, hq => by
      cases d2 with
      | nil => simp [dictKeys] at hk
      | cons p2 r2 =>
        have hkc : p1.1 = p2.1 ∧ dictKeys r1 = dictKeys r2 := by
          have : p1.1 :: dictKeys r1 = p2.1 :: dictKeys r2 := hk
          exact ⟨List.head_eq_of_cons_eq this, List.tail_eq_of_cons_eq this⟩
        have e1 : dictGet (p1 :: r1) p1.1 = some p1.2 := by simp [dictGet]
        have e2 : dictGet (p2 :: r2) p1.1 = some p2.2 := by
          rw [hkc.1]
          simp [dictGet]
        have hv : p1.2 = p2.2 := by
          have h := hq p1.1
          rw [e1, e2] at h
          exact Option.some.inj h
        have hnd' : (p1.1 :: dictKeys r1).Nodup := hnd
        have hout : p1.1 ∉ dictKeys r1 := (List.nodup_cons.mp hnd').1
        have hnr : (dictKeys r1).Nodup := (List.nodup_cons.mp hnd').2
        have hout2 : p1.1 ∉ dictKeys r2 := hkc.2 ▸ hout
        have hqr : ∀ q, dictGet r1 q = dictGet r2 q := by
          intro q
          by_cases hqp : q = p1.1
          · subst hqp
            rw [dictGet_eq_none r1 p1.1 hout, dictGet_eq_none r2 p1.1 hout2]
          · have h := hq q
            have hc1 : ¬ p1.1 = q := fun he => hqp he.symm
            have hc2 : ¬ p2.1 = q := fun he => hqp (hkc.1.trans he).symm
            simpa [dictGet, hc1, hc2] using h
        have hrest := dict_ext r1 r2 hnr hkc.2 hqr
        have hp : p1 = p2 := Prod.ext hkc.1 hv
        rw [hp, hrest]

theorem ingest_ingest (d : Stocks) (items : List ApiItem)
    (hnd : (dictKeys d).Nodup) :
    ingest (ingest d items) items = ingest d items := by
  apply dict_ext
  · exact nodup_dictKeys_ingest items _ (nodup_dictKeys_ingest items d hnd)
  · exact dictKeys_ingest_stable items _ (fun i hi => code_mem_dictKeys_ingest items d i hi)
  · intro q
    rw [dictGet_ingest items (ingest d items) q, dictGet_ingest items d q]
    cases hlr : lastRec items q <;> simp [hlr]

theorem dictKeys_ingest_fresh : ∀ (items : List ApiItem) (d : Stocks),
    (∀ i ∈ items, i.itemCode ∉ dictKeys d) →
    (items.map ApiItem.itemCode).Nodup →
    dictKeys (ingest d items) = dictKeys d ++ items.map ApiItem.itemCode
  | [], d, _, _ => by simp [ingest_nil]
  | i :: rest, d, hfresh, hnd => by
      have h1 : i.itemCode ∉ dictKeys d := hfresh i (List.mem_cons_self _ _)
      have hkeys : dictKeys (dictInsert d i.itemCode (recordOfItem i)) =
          dictKeys d ++ [i.itemCode] := by
        rw [dictKeys_insert, if_neg h1]
      have hndc : i.itemCode ∉ rest.map ApiItem.itemCode ∧
          (rest.map ApiItem.itemCode).Nodup := List.nodup_cons.mp hnd
      have hfresh' : ∀ j ∈ rest,
          j.itemCode ∉ dictKeys (dictInsert d i.itemCode (recordOfItem i)) := by
        intro j hj hmem
        rw [hkeys, List.mem_append] at hmem
        rcases hmem with hm | hm
        · exact hfresh j (List.mem_cons_of_mem _ hj) hm
        · rw [List.mem_singleton] at hm
          exact hndc.1 (hm ▸ List.mem_map_of_mem ApiItem.itemCode hj)
      rw [ingest_cons, dictKeys_ingest_fresh rest _ hfresh' hndc.2, hkeys]
      simp

theorem fetch_from_api_idem (st : ManagerState) (r : ApiResponse)
    (hnd : (dictKeys st.stocks).Nodup) :
    fetch_from_api (fetch_from_api st r) r = fetch_from_api st r := by
  cases r with
  | ok items =>
    simp only [fetch_from_api]
    rw [ingest_ingest st.stocks items hnd]
  | httpError s => rfl
  | transportError => rfl

/-! ### C1: cache round-trip -/

/-- C1: saving any catalog state and then loading the written file
reproduces the state exactly — the same `symbols` sequence (element-wise,
order included, hence duplicate-free whenever the saved one was) and the same
`stocks` mapping, regardless of the in-memory state the loader starts from. -/
theorem C1_round_trip (prior st : ManagerState) (t : String) :
    load_from_cache prior (.ok (save_to_cache st t)) = st ∧
    (load_from_cache prior (.ok (save_to_cache st t))).symbols = st.symbols ∧
    (load_from_cache prior (.ok (save_to_cache st t))).stocks = st.stocks := by
  refine ⟨?_, rfl, rfl⟩
  cases st
  rfl

/-! ### C2: cache precedence -/

/-- C2: constructing the manager with `force_refresh = False` while a cache
file exists performs no network call and adopts exactly the cache-load result,
leaving the world untouched; constructing with `force_refresh = True` always
performs the network fetch, whatever the cache situation. -/
theorem C2_cache_precedence (w : World) (t : String) :
    (w.cache.existsOnDisk = true →
      (initManager false w t).networkCalled = false ∧
      (initManager false w t).state = load_from_cache emptyState w.cache ∧
      (initManager false w t).world = w) ∧
    (initManager true w t).networkCalled = true := by
  constructor
  · intro h
    simp [initManager, load_symbols, h]
  · simp [initManager, load_symbols]

theorem C2_cache_precedence_witness :
    (CacheRead.ok (save_to_cache exPrior "t0")).existsOnDisk = true ∧
    (initManager false ⟨.ok (save_to_cache exPrior "t0"), .ok []⟩ "t1").networkCalled = false ∧
    (initManager false ⟨.ok (save_to_cache exPrior "t0"), .ok []⟩ "t1").state =
      load_from_cache emptyState (.ok (save_to_cache exPrior "t0")) ∧
    (initManager false ⟨.ok (save_to_cache exPrior "t0"), .ok []⟩ "t1").world =
      ⟨.ok (save_to_cache exPrior "t0"), .ok []⟩ := by
  have h := C2_cache_precedence ⟨.ok (save_to_cache exPrior "t0"), .ok []⟩ "t1"
  exact ⟨rfl, h.1 rfl⟩

/-! ### C6: lookup miss -/

/-- C6: for any symbol not among the mapping's keys, `get_stock_info` returns
the empty record (the `{}` default of `dict.get`), and being a total function
it can never raise. -/
theorem C6_lookup_miss (st : ManagerState) (s : String)
    (h : s ∉ dictKeys st.stocks) : get_stock_info st s = none :=
  dictGet_eq_none st.stocks s h

theorem C6_lookup_miss_witness :
    "NOSUCHSYMBOL" ∉ dictKeys exPrior.stocks ∧
    get_stock_info exPrior "NOSUCHSYMBOL" = none :=
  ⟨by decide, C6_lookup_miss exPrior "NOSUCHSYMBOL" (by decide)⟩

/-! ### C7: cache-load failure -/

/-- C7: on every failing cache-file condition — absent file, unreadable file,
or invalid structured data — the load operation leaves the in-memory state
unchanged (the exception is caught inside `_load_from_cache`, so nothing is
thrown and nothing is adopted). -/
theorem C7_cache_load_failure (st : ManagerState) :
    load_from_cache st .absent = st ∧
    load_from_cache st .unreadable = st ∧
    load_from_cache st .invalidData = st :=
  ⟨rfl, rfl, rfl⟩

/-! ### C9: empty price series -/

/-- C9: on the empty price series the plotting computation faults at the
`min(prices)` call with a `ValueError` (empty sequence) that `plot_stock`
does not catch — the guard the spec asks for is not implemented. -/
theorem C9_empty_series_faults (dateFor : Nat → String) :
    plot_stock dateFor [] = .error .valueError := rfl

/-! ### C10: generate_historical_data -/

theorem genAux_spec (ch : Nat → ℚ) :
    ∀ (k : Nat) (l : List ℚ), l ≠ [] →
      (genAux ch k l).length = k + l.length ∧
      (genAux ch k l).getLast? = l.getLast?
  | 0, l, _ => ⟨by simp [genAux], rfl⟩
  | k + 1, l, h => by
    have step := genAux_spec ch k ((pyLastD l * (1 + ch k / 100)) :: l) (by simp)
    refine ⟨?_, ?_⟩
    · simp only [genAux]
      rw [step.1]
      simp
      omega
    · simp only [genAux]
      rw [step.2]
      match l, h with
      | a :: l', _ => exact List.getLast?_cons_cons

/-- C10: for every positive starting price and every `days ≥ 1`,
`generate_historical_data` returns a list of exactly `days` prices whose last
element is the starting price (each new price is inserted at position 0, so
the initial price stays last). -/
theorem C10_generate_historical (ch : Nat → ℚ) (p : ℚ) (d : Nat)
    (hp : 0 < p) (hd : 1 ≤ d) :
    (generate_historical_data ch p d).length = d ∧
    (generate_historical_data ch p d).getLast? = some p := by
  have h := genAux_spec ch (d - 1) [p] (by simp)
  refine ⟨?_, ?_⟩
  · rw [generate_historical_data, h.1]
    simp
    omega
  · rw [generate_historical_data, h.2]
    rfl

theorem C10_generate_historical_witness :
    (0 : ℚ) < 1 ∧ 1 ≤ 3 ∧
    ((generate_historical_data (fun _ => 0) 1 3).length = 3 ∧
     (generate_historical_data (fun _ => 0) 1 3).getLast? = some 1) :=
  ⟨by norm_num, by norm_num,
   C10_generate_historical (fun _ => 0) 1 3 (by norm_num) (by norm_num)⟩

/-! ### C3: catalog invariant and insertion order -/

/-- C3: the invariant `self.symbols = list(self.stocks.keys())` holds of the
pre-`load_symbols` construction state and is preserved by every
`load_symbols` run (hence by construction, cache load, API fetch and
refresh), as long as any cache file read is one the program itself wrote;
and after a fetch of a duplicate-free response into an empty catalog the
sequence is exactly the response order — insertion order, not sorted. -/
theorem C3_invariant :
    (∀ (force : Bool) (st : ManagerState) (w : World) (t : String),
      Inv st → GoodCache w.cache →
        Inv (load_symbols force st w t).state ∧
        GoodCache (load_symbols force st w t).world.cache) ∧
    Inv emptyState ∧
    (∀ items : List ApiItem, (items.map ApiItem.itemCode).Nodup →
      (fetch_from_api emptyState (ApiResponse.ok items)).symbols =
        items.map ApiItem.itemCode) := by
  refine ⟨?_, rfl, ?_⟩
  · intro force st w t hinv hgood
    by_cases hbr : (!force && w.cache.existsOnDisk) = true
    · rw [load_symbols, if_pos hbr]
      refine ⟨?_, hgood⟩
      cases hc : w.cache with
      | ok d =>
        rw [hc] at hgood
        obtain ⟨st', t', hinv', hd⟩ := hgood
        subst hd
        simpa [load_from_cache, save_to_cache, Inv] using hinv'
      | absent => simpa [load_from_cache] using hinv
      | unreadable => simpa [load_from_cache] using hinv
      | invalidData => simpa [load_from_cache] using hinv
    · rw [load_symbols, if_neg hbr]
      have hinv2 : Inv (fetch_from_api st w.response) := by
        cases hresp : w.response with
        | ok items => rfl
        | httpError s => exact hinv
        | transportError => exact hinv
      exact ⟨hinv2, ⟨fetch_from_api st w.response, t, hinv2, rfl⟩⟩
  · intro items hnd
    show dictKeys (ingest emptyState.stocks items) = items.map ApiItem.itemCode
    rw [dictKeys_ingest_fresh items emptyState.stocks
      (fun i _ hmem => by simp [dictKeys, emptyState] at hmem) hnd]
    rfl

theorem C3_invariant_witness :
    Inv exPrior ∧ GoodCache CacheRead.absent ∧
    Inv (load_symbols true exPrior ⟨.absent, .ok [exItemB]⟩ "t").state ∧
    ([exItemB].map ApiItem.itemCode).Nodup ∧
    (fetch_from_api emptyState (ApiResponse.ok [exItemB])).symbols =
      [exItemB].map ApiItem.itemCode := by
  refine ⟨rfl, trivial, ?_, by simp, ?_⟩
  · exact (C3_invariant.1 true exPrior ⟨.absent, .ok [exItemB]⟩ "t" rfl trivial).1
  · exact C3_invariant.2.2 [exItemB] (by simp)

/-! ### C4: refresh vs fresh construction -/

/-- C4 counterexample: a catalog holding ticker `A`, refreshed against a
response containing only ticker `B`, keeps the stale `A` entry, whereas a
fresh construction with `force_refresh = True` against the same response
holds only `B` — so refresh is not equivalent to fresh construction. -/
theorem C4_counterexample :
    (refresh_symbols exPrior ⟨CacheRead.absent, ApiResponse.ok [exItemB]⟩ "t").state ≠
      (initManager true ⟨CacheRead.absent, ApiResponse.ok [exItemB]⟩ "t").state := by
  decide

/-- C4 amended: `refresh()` is exactly `load_symbols(force_refresh=True)` on
the current state, so it always re-fetches and overwrites the cache; but the
fetch merges the response into the existing mapping, so it coincides with a
fresh `force_refresh=True` construction only from the empty catalog, and
every key already in the mapping survives a refresh even when absent from
the response. -/
theorem C4_refresh_amended :
    (∀ (st : ManagerState) (w : World) (t : String),
      refresh_symbols st w t = load_symbols true st w t) ∧
    (∀ (w : World) (t : String),
      refresh_symbols emptyState w t = initManager true w t) ∧
    (∀ (st : ManagerState) (w : World) (t : String) (items : List ApiItem)
      (k : String), w.response = ApiResponse.ok items → k ∈ dictKeys st.stocks →
      k ∈ dictKeys (refresh_symbols st w t).state.stocks) := by
  refine ⟨fun _ _ _ => rfl, fun _ _ => rfl, ?_⟩
  intro st w t items k hr hk
  have hst : (refresh_symbols st w t).state = fetch_from_api st w.response := rfl
  rw [hst, hr]
  exact mem_dictKeys_ingest items st.stocks k hk

theorem C4_refresh_amended_witness :
    (⟨CacheRead.absent, ApiResponse.ok [exItemB]⟩ : World).response =
      ApiResponse.ok [exItemB] ∧
    "A" ∈ dictKeys exPrior.stocks ∧
    "A" ∈ dictKeys
      (refresh_symbols exPrior ⟨CacheRead.absent, ApiResponse.ok [exItemB]⟩ "t").state.stocks := by
  refine ⟨rfl, by decide, ?_⟩
  exact C4_refresh_amended.2.2 exPrior ⟨CacheRead.absent, ApiResponse.ok [exItemB]⟩
    "t" [exItemB] "A" rfl (by decide)

/-! ### C5: non-200 status -/

/-- C5 counterexample: refreshing a catalog that already holds ticker `A`
while the endpoint answers status 500 leaves `get_symbols()` returning
`["A"]`, not the empty sequence — the catalog is left as it was, not empty. -/
theorem C5_counterexample :
    get_symbols (refresh_symbols exPrior
      ⟨CacheRead.absent, ApiResponse.httpError 500⟩ "t").state ≠ [] := by
  decide

/-- C5 amended: a non-200 status makes `_fetch_from_api` leave the in-memory
catalog unchanged (the status is only logged, nothing is raised); because
construction starts from the empty catalog, any constructor-triggered fetch
that meets a non-200 ends with `get_symbols()` empty — while a refresh of a
populated catalog retains the previous symbols instead. -/
theorem C5_non200_amended :
    (∀ (st : ManagerState) (s : Nat),
      fetch_from_api st (ApiResponse.httpError s) = st) ∧
    (∀ (w : World) (t : String) (s : Nat), w.response = ApiResponse.httpError s →
      get_symbols (initManager true w t).state = []) ∧
    (∀ (w : World) (t : String) (s : Nat), w.response = ApiResponse.httpError s →
      w.cache = CacheRead.absent →
      get_symbols (initManager false w t).state = []) := by
  refine ⟨fun _ _ => rfl, ?_, ?_⟩
  · intro w t s hr
    simp [initManager, load_symbols, fetch_from_api, hr, get_symbols, emptyState]
  · intro w t s hr hc
    simp [initManager, load_symbols, fetch_from_api, hr, hc, get_symbols,
      emptyState, CacheRead.existsOnDisk]

theorem C5_non200_amended_witness :
    (⟨CacheRead.absent, ApiResponse.httpError 500⟩ : World).response =
      ApiResponse.httpError 500 ∧
    get_symbols (initManager true
      ⟨CacheRead.absent, ApiResponse.httpError 500⟩ "t").state = [] := by
  refine ⟨rfl, ?_⟩
  exact C5_non200_amended.2.1 ⟨CacheRead.absent, ApiResponse.httpError 500⟩ "t" 500 rfl

/-! ### C8: refresh idempotence -/

/-- C8: two successive refreshes against an unchanged upstream response
produce the same in-memory state, and the cache file written by the second
refresh is the one written by the first with only the `cached_at` timestamp
changed (`stocks` and `symbols` byte-identical). -/
theorem C8_refresh_idempotent (st : ManagerState) (w : World) (t1 t2 : String)
    (r1 r2 : StepResult)
    (hnd : (dictKeys st.stocks).Nodup)
    (h1 : r1 = refresh_symbols st w t1)
    (h2 : r2 = refresh_symbols r1.state r1.world t2) :
    r2.state = r1.state ∧
    r1.world.cache = CacheRead.ok (save_to_cache r1.state t1) ∧
    r2.world.cache = CacheRead.ok (save_to_cache r1.state t2) ∧
    (save_to_cache r1.state t2).cacheStocks =
      (save_to_cache r1.state t1).cacheStocks ∧
    (save_to_cache r1.state t2).cacheSymbols =
      (save_to_cache r1.state t1).cacheSymbols := by
  subst h1
  subst h2
  have hstate : (refresh_symbols st w t1).state = fetch_from_api st w.response := rfl
  have hs2 : (refresh_symbols (refresh_symbols st w t1).state
        (refresh_symbols st w t1).world t2).state =
      fetch_from_api (fetch_from_api st w.response) w.response := rfl
  refine ⟨?_, rfl, ?_, rfl, rfl⟩
  · rw [hs2, hstate, fetch_from_api_idem st w.response hnd]
  · have hc2 : (refresh_symbols (refresh_symbols st w t1).state
          (refresh_symbols st w t1).world t2).world.cache =
        CacheRead.ok (save_to_cache
          (fetch_from_api (fetch_from_api st w.response) w.response) t2) := rfl
    rw [hc2, hstate, fetch_from_api_idem st w.response hnd]

theorem C8_refresh_idempotent_witness :
    (dictKeys exPrior.stocks).Nodup ∧
    (refresh_symbols
        (refresh_symbols exPrior ⟨CacheRead.absent, ApiResponse.ok [exItemB]⟩ "t1").state
        (refresh_symbols exPrior ⟨CacheRead.absent, ApiResponse.ok [exItemB]⟩ "t1").world
        "t2").state =
      (refresh_symbols exPrior ⟨CacheRead.absent, ApiResponse.ok [exItemB]⟩ "t1").state := by
  refine ⟨by decide, ?_⟩
  exact (C8_refresh_idempotent exPrior ⟨CacheRead.absent, ApiResponse.ok [exItemB]⟩
    "t1" "t2" _ _ (by decide) rfl rfl).1

end StockVis
